import Mathlib

/-!
Verification of the relay store and chunked-file reassembly engine of
src/server.js (an Express in-memory message relay).

Shallow embedding conventions:
* JavaScript numbers are modelled as rationals (`Rat`): the source only ever
  checks `typeof x === 'number'`, so fractional values flow through unchanged,
  and all arithmetic appearing in the source (counting, comparison) is exact.
* A request-body field that may be absent or of the wrong JS type is modelled
  as an `Option` of the expected type (`none` = absent / not of that type).
  JS truthiness on strings (empty string is falsy) is modelled explicitly.
* JS objects used as dictionaries (`fileChunks`, a chunk set's `chunks`) are
  modelled as association lists with insert-or-overwrite semantics that
  preserve first-insertion order, matching JS property-order behaviour as far
  as the source observes it (`Object.keys(...).length` key counts).
* `Date.now()` and `Math.random()` are environment inputs: each mutating
  request carries a `now : Nat` and a random suffix `rnd : String`.
* The rate-limiting middleware keeps one record per client key in
  `rateLimitMap`; it is modelled by the per-key record transition `rateLimitStep`
  (the map is partitioned by key and no handler reads another key's record).
* The `setTimeout` deletion of a completed chunk set and the hourly message
  expiration sweep are modelled as explicit operations (`opChunkTimer`,
  `opSweepMessages`) that the environment may fire at any point of a trace.
-/

deriving instance DecidableEq for Except

/-! ## Security constants (src/server.js lines 6-12, 72) -/

def MAX_MESSAGES : Nat := 10000
def MAX_USERS : Nat := 5000
def MAX_MESSAGE_SIZE : Nat := 100000
def MAX_CHUNK_SIZE : Nat := 100000
def RATE_LIMIT_WINDOW : Nat := 60000
def RATE_LIMIT_MAX_REQUESTS : Nat := 100
def EXPIRATION_TIME : Nat := 24 * 60 * 60 * 1000

/-! ## Association-list helpers (JS object used as a dictionary) -/

/-- Lookup of a property in a JS object modelled as an association list. -/
def lookupKey {α β : Type} [DecidableEq α] : List (α × β) → α → Option β
  | [], _ => none
  | (k', v') :: rest, k => if k' = k then some v' else lookupKey rest k

/-- Property assignment in a JS object: overwrite in place if the key exists,
append at the end otherwise. -/
def insertKey {α β : Type} [DecidableEq α] : List (α × β) → α → β → List (α × β)
  | [], k, v => [(k, v)]
  | (k', v') :: rest, k, v =>
      if k' = k then (k, v) :: rest else (k', v') :: insertKey rest k v

/-! ## Input validation helpers (src/server.js lines 87-93) -/

/-- One character of the regex class in /^[a-f0-9]+$/. -/
def isHexLower (c : Char) : Bool := ('a' ≤ c && c ≤ 'f') || ('0' ≤ c && c ≤ '9')

/-- validateHash (line 87): hash truthy, a string, length 32, all hex chars.
The argument is `none` when the field is absent or not a string. -/
def validateHash : Option String → Bool
  | some h => h != "" && h.length == 32 && h.data.all isHexLower
  | none => false

/-- validateMessageData (line 91): data truthy, a string, length at most
MAX_MESSAGE_SIZE. -/
def validateMessageData : Option String → Bool
  | some d => d != "" && d.length ≤ MAX_MESSAGE_SIZE
  | none => false

/-- JS `x || null` applied to an optional string: an absent field or an empty
string both collapse to null. -/
def jsStrOrNull : Option String → Option String
  | some s => if s = "" then none else some s
  | none => none

/-- JS `timestamp || Date.now()`: an absent timestamp, or the falsy number 0,
is replaced by the current time. -/
def jsTsOrNow : Option Nat → Nat → Nat
  | some t, now => if t = 0 then now else t
  | none, now => now

/-! ## Data model -/

/-- Rate limit record (line 26): per-client count and window reset time. -/
structure RateRecord where
  count : Nat
  resetTime : Nat
deriving DecidableEq

/-- Participant record (line 109): hash and last-active timestamp. -/
structure UserRec where
  hash : String
  lastActive : Nat
deriving DecidableEq

/-- A transient chunk set (lines 196-203, 207): metadata from the first
request for its key plus the accumulated chunk mapping. -/
structure ChunkSet where
  fromId : String
  fileName : String
  fileType : Option String
  fileSize : Option Rat
  totalChunks : Rat
  chunks : List (Rat × String)
  lastUpdate : Nat
deriving DecidableEq

/-- A stored message (lines 157-165 for direct sends, 214-220 for completed
files; fields the source leaves undefined are `none`). -/
structure Message where
  id : String
  fromId : String
  toId : Option String
  encryptedData : Option String
  timestamp : Nat
  hasFiles : Bool
  userPublicKey : Option String
  fileData : Option ChunkSet
deriving DecidableEq

/-- The module-level mutable state of the server (lines 66-69). -/
structure ServerState where
  messages : List Message
  users : List UserRec
  fileChunks : List (String × ChunkSet)
  journalistPublicKey : Option String
deriving DecidableEq

/-- The state at process start: all stores empty, no journalist key. -/
def initState : ServerState := ⟨[], [], [], none⟩

/-- An API error: HTTP status code and error message. -/
abbrev ApiErr := Nat × String

/-! ## Admission Controller (rateLimit middleware, lines 21-43) -/

/-- One admission decision for a single client key: the middleware body of
lines 25-42 acting on that key's record in rateLimitMap (`none` when the map
has no entry for the key). Returns the decision and the stored record. -/
def rateLimitStep : Option RateRecord → Nat → Bool × RateRecord
  | none, now => (true, ⟨1, now + RATE_LIMIT_WINDOW⟩)
  | some r, now =>
      if r.resetTime < now then (true, ⟨1, now + RATE_LIMIT_WINDOW⟩)
      else if RATE_LIMIT_MAX_REQUESTS ≤ r.count then (false, r)
      else (true, ⟨r.count + 1, r.resetTime⟩)

/-- A sequence of admission decisions for one client key at the given call
times; returns the decision list and the final stored record. -/
def runRateLimit : Option RateRecord → List Nat → List Bool × Option RateRecord
  | rec, [] => ([], rec)
  | rec, t :: ts =>
      let step1 := rateLimitStep rec t
      let rest := runRateLimit (some step1.2) ts
      (step1.1 :: rest.1, rest.2)

/-! ## Request handlers -/

/-- POST /api/register-user (lines 96-120). Returns the journalist public key
on success. -/
def registerUserH (s : ServerState) (hash : Option String) (now : Nat) :
    Except ApiErr (Option String) × ServerState :=
  if ¬ validateHash hash then (.error (400, "Invalid hash format"), s)
  else
    let h := hash.getD ""
    if MAX_USERS ≤ s.users.length ∧ ¬ s.users.any (fun u => u.hash == h) then
      (.error (503, "Server capacity reached"), s)
    else if s.users.any (fun u => u.hash == h) then
      (.ok s.journalistPublicKey,
       { s with users := s.users.map (fun u => if u.hash == h then { u with lastActive := now } else u) })
    else
      (.ok s.journalistPublicKey, { s with users := s.users ++ [⟨h, now⟩] })

/-- POST /api/register-journalist (lines 123-137). `envSecret` is
process.env.JOURNALIST_SECRET (absent = `none`). The stored key is truthy
exactly when it is a non-empty string. -/
def registerJournalistH (envSecret : Option String) (s : ServerState)
    (publicKey secret : Option String) : Except ApiErr Unit × ServerState :=
  if s.journalistPublicKey.getD "" ≠ "" ∧ secret ≠ envSecret then
    (.error (403, "Unauthorized"), s)
  else if publicKey.getD "" = "" then
    (.error (400, "Invalid public key"), s)
  else
    (.ok (), { s with journalistPublicKey := publicKey })

/-- POST /api/send-message (lines 140-170). Returns the new message id. -/
def sendMessageH (s : ServerState) (fromv tov encryptedData : Option String)
    (timestamp : Option Nat) (hasFiles : Option Bool) (userPublicKey : Option String)
    (now : Nat) (rnd : String) : Except ApiErr String × ServerState :=
  if fromv.getD "" = "" then (.error (400, "Invalid sender"), s)
  else if ¬ validateMessageData encryptedData then (.error (400, "Invalid message data"), s)
  else if MAX_MESSAGES ≤ s.messages.length then (.error (503, "Server capacity reached"), s)
  else
    let msg : Message :=
      ⟨toString now ++ rnd, fromv.getD "", jsStrOrNull tov, encryptedData,
       jsTsOrNow timestamp now, hasFiles.getD false, jsStrOrNull userPublicKey, none⟩
    (.ok msg.id, { s with messages := s.messages ++ [msg] })

/-- POST /api/send-chunk (lines 173-231). Returns (receivedChunks, request's
totalChunks). The chunk metadata check is only `typeof === 'number'`, so any
rational (JS number) passes. On completion the synthesized file message is
pushed with no capacity check. -/
def sendChunkH (s : ServerState) (fromv : Option String)
    (chunkIndex totalChunks : Option Rat) (chunkData fileName fileType : Option String)
    (fileSize : Option Rat) (now : Nat) (rnd : String) :
    Except ApiErr (Nat × Rat) × ServerState :=
  if fromv.getD "" = "" then (.error (400, "Invalid sender"), s)
  else
    match chunkIndex, totalChunks with
    | some ci, some tc =>
        if chunkData.getD "" = "" ∨ MAX_CHUNK_SIZE < (chunkData.getD "").length then
          (.error (400, "Invalid chunk data"), s)
        else if fileName.getD "" = "" ∨ 255 < (fileName.getD "").length then
          (.error (400, "Invalid filename"), s)
        else
          let f := fromv.getD ""
          let fn := fileName.getD ""
          let chunkKey := f ++ "_" ++ fn
          let cs :=
            match lookupKey s.fileChunks chunkKey with
            | some cs => cs
            | none => ⟨f, fn, fileType, fileSize, tc, [], 0⟩
          let cs' := { cs with chunks := insertKey cs.chunks ci (chunkData.getD ""),
                               lastUpdate := now }
          let received : Nat := cs'.chunks.length
          let s' := { s with fileChunks := insertKey s.fileChunks chunkKey cs' }
          if (received : Rat) = tc then
            let msg : Message :=
              ⟨toString now ++ rnd, f, none, none, now, true, none, some cs'⟩
            (.ok (received, tc), { s' with messages := s'.messages ++ [msg] })
          else
            (.ok (received, tc), s')
    | _, _ => (.error (400, "Invalid chunk metadata"), s)

/-- GET /api/get-messages/:userType (lines 234-252). Pure read: no state
change. The journalist branch returns the whole store with no credential. -/
def getMessagesH (s : ServerState) (userType : String) (hash : Option String) :
    Except ApiErr (List Message) :=
  if userType = "journalist" then .ok s.messages
  else if ¬ validateHash hash then .error (400, "Invalid user hash")
  else
    let h := hash.getD ""
    .ok (s.messages.filter (fun m => m.fromId == h || m.toId == some h))

/-- The backward splice loop of lines 263-267: remove every message whose
from equals the hash, keeping the rest in order. -/
def removeFromSender : List Message → String → List Message
  | [], _ => []
  | m :: rest, h =>
      if m.fromId == h then removeFromSender rest h
      else m :: removeFromSender rest h

/-- The findIndex/splice pair of lines 270-271: remove the first user record
with the given hash, if any. -/
def removeUserRec : List UserRec → String → List UserRec
  | [], _ => []
  | u :: rest, h => if u.hash == h then rest else u :: removeUserRec rest h

/-- POST /api/nuke-user (lines 255-281). -/
def nukeUserH (s : ServerState) (hash : Option String) :
    Except ApiErr Unit × ServerState :=
  if ¬ validateHash hash then (.error (400, "Invalid user hash"), s)
  else
    let h := hash.getD ""
    (.ok (),
     { s with
       messages := removeFromSender s.messages h,
       users := removeUserRec s.users h,
       fileChunks := s.fileChunks.filter (fun kv => ¬ (h ++ "_").data.isPrefixOf kv.1.data) })

/-! ## Operations and reachability -/

/-- One admitted request or environment event. `now`/`rnd` are the values of
Date.now() / Math.random() during the request. -/
inductive Op where
  | opRegisterUser (hash : Option String) (now : Nat)
  | opRegisterJournalist (publicKey secret : Option String)
  | opSendMessage (fromv tov encryptedData : Option String) (timestamp : Option Nat)
      (hasFiles : Option Bool) (userPublicKey : Option String) (now : Nat) (rnd : String)
  | opSendChunk (fromv : Option String) (chunkIndex totalChunks : Option Rat)
      (chunkData fileName fileType : Option String) (fileSize : Option Rat)
      (now : Nat) (rnd : String)
  | opGetMessages (userType : String) (hash : Option String)
  | opNukeUser (hash : Option String)
  | opChunkTimer (key : String)
  | opSweepMessages (now : Nat)
deriving DecidableEq

/-- The state transition of one operation. `envSecret` is the configured
JOURNALIST_SECRET. `opChunkTimer key` is the setTimeout callback of lines
225-227; `opSweepMessages` is the hourly expiration sweep of lines 75-82
(the splice loop keeps non-expired messages in order). -/
def step (envSecret : Option String) (s : ServerState) : Op → ServerState
  | .opRegisterUser hash now => (registerUserH s hash now).2
  | .opRegisterJournalist pk sec => (registerJournalistH envSecret s pk sec).2
  | .opSendMessage fromv tov d ts hf upk now rnd =>
      (sendMessageH s fromv tov d ts hf upk now rnd).2
  | .opSendChunk fromv ci tc cd fn ft fs now rnd =>
      (sendChunkH s fromv ci tc cd fn ft fs now rnd).2
  | .opGetMessages _ _ => s
  | .opNukeUser hash => (nukeUserH s hash).2
  | .opChunkTimer key => { s with fileChunks := s.fileChunks.filter (fun kv => kv.1 ≠ key) }
  | .opSweepMessages now =>
      { s with messages := s.messages.filter (fun m => ¬ EXPIRATION_TIME < now - m.timestamp) }

/-- A state is reachable when some admitted trace produces it from the
initial state. -/
def Reachable (envSecret : Option String) (s : ServerState) : Prop :=
  ∃ ops : List Op, List.foldl (step envSecret) initState ops = s

/-! ## Association-list lemmas -/

lemma lookupKey_insertKey_self {α β : Type} [DecidableEq α] (l : List (α × β)) (k : α) (v : β) :
    lookupKey (insertKey l k v) k = some v := by
  induction l with
  | nil => simp [insertKey, lookupKey]
  | cons p rest ih =>
      obtain ⟨k', v'⟩ := p
      by_cases h : k' = k
      · simp [insertKey, h, lookupKey]
      · simp [insertKey, h, lookupKey, ih]

lemma mem_insertKey {α β : Type} [DecidableEq α] {l : List (α × β)} {k : α} {v : β}
    {x : α × β} (hx : x ∈ insertKey l k v) : x = (k, v) ∨ x ∈ l := by
  induction l with
  | nil => simpa [insertKey] using hx
  | cons p rest ih =>
      obtain ⟨k', v'⟩ := p
      by_cases h : k' = k
      · simp only [insertKey, if_pos h, List.mem_cons] at hx
        rcases hx with hx | hx
        · exact Or.inl hx
        · exact Or.inr (List.mem_cons_of_mem _ hx)
      · simp only [insertKey, if_neg h, List.mem_cons] at hx
        rcases hx with hx | hx
        · exact Or.inr (by simp [hx])
        · rcases ih hx with hx | hx
          · exact Or.inl hx
          · exact Or.inr (List.mem_cons_of_mem _ hx)

lemma mem_keys_insertKey {α β : Type} [DecidableEq α] {l : List (α × β)} {k : α} {v : β}
    {x : α} (hx : x ∈ (insertKey l k v).map Prod.fst) :
    x = k ∨ x ∈ l.map Prod.fst := by
  rcases List.mem_map.1 hx with ⟨p, hp, hpx⟩
  rcases mem_insertKey hp with h | h
  · left; rw [← hpx, h]
  · right; exact hpx ▸ List.mem_map_of_mem _ h

lemma keys_insertKey_nodup {α β : Type} [DecidableEq α] {l : List (α × β)} (k : α) (v : β)
    (hl : (l.map Prod.fst).Nodup) : ((insertKey l k v).map Prod.fst).Nodup := by
  induction l with
  | nil => simp [insertKey]
  | cons p rest ih =>
      obtain ⟨k', v'⟩ := p
      simp only [List.map_cons, List.nodup_cons] at hl
      by_cases h : k' = k
      · simpa [insertKey, h, List.nodup_cons] using hl
      · simp only [insertKey, if_neg h, List.map_cons, List.nodup_cons]
        refine ⟨fun hc => ?_, ih hl.2⟩
        rcases mem_keys_insertKey hc with hc | hc
        · exact h hc
        · exact hl.1 hc

lemma insertKey_eq_append {α β : Type} [DecidableEq α] {l : List (α × β)} {k : α} (v : β)
    (hk : k ∉ l.map Prod.fst) : insertKey l k v = l ++ [(k, v)] := by
  induction l with
  | nil => simp [insertKey]
  | cons p rest ih =>
      obtain ⟨k', v'⟩ := p
      simp only [List.map_cons, List.mem_cons] at hk
      push_neg at hk
      have hne : ¬ k' = k := fun h => hk.1 h.symm
      simp [insertKey, hne, ih hk.2]

/-- The backward splice loop is removal by predicate: it keeps, in order,
exactly the messages whose sender differs from the hash. -/
lemma removeFromSender_eq_filter (l : List Message) (h : String) :
    removeFromSender l h = l.filter (fun m => !(m.fromId == h)) := by
  induction l with
  | nil => rfl
  | cons m rest ih =>
      simp only [removeFromSender, List.filter_cons]
      by_cases hm : m.fromId == h
      · simp [hm, ih]
      · simp [hm, ih]

/-! ## Claim C9: the journalist read path needs no credential -/

/-- C9: for every store state, a getMessages request with userType
"journalist" returns every stored message in store (insertion, oldest-first)
order, regardless of the hash query parameter — no secret, key, or credential
is required. -/
theorem getMessages_journalist_no_credential (s : ServerState) (hash : Option String) :
    getMessagesH s "journalist" hash = .ok s.messages := by
  simp [getMessagesH]

/-! ## Claim C6: journalist key registration and the shared secret -/

/-- C6: registering a journalist key when none exists succeeds for any
supplied secret and any non-empty key; once a (necessarily non-empty) key is
stored, a registration whose secret differs from the configured shared secret
is rejected with 403 Unauthorized and the stored key is unchanged. -/
theorem register_journalist_secret (env : Option String) (s : ServerState)
    (pk : String) (secret : Option String) :
    (s.journalistPublicKey = none → pk ≠ "" →
      registerJournalistH env s (some pk) secret =
        (.ok (), { s with journalistPublicKey := some pk })) ∧
    (∀ k, s.journalistPublicKey = some k → k ≠ "" → secret ≠ env →
      registerJournalistH env s (some pk) secret = (.error (403, "Unauthorized"), s)) := by
  constructor
  · intro hnone hpk
    simp [registerJournalistH, hnone, hpk]
  · intro k hk hkne hsec
    simp [registerJournalistH, hk, hkne, hsec]

/-- Concrete run of register_journalist_secret: first registration with a
wrong-looking secret succeeds; re-registration with a wrong secret is
rejected and the key stays "PUB1". -/
theorem register_journalist_secret_witness :
    registerJournalistH (some "S") initState (some "PUB1") (some "guess") =
      (.ok (), { initState with journalistPublicKey := some "PUB1" }) ∧
    registerJournalistH (some "S") { initState with journalistPublicKey := some "PUB1" }
        (some "PUB2") (some "wrong") =
      (.error (403, "Unauthorized"), { initState with journalistPublicKey := some "PUB1" }) :=
  ⟨(register_journalist_secret (some "S") initState "PUB1" (some "guess")).1 rfl (by decide),
   (register_journalist_secret (some "S") { initState with journalistPublicKey := some "PUB1" }
      "PUB2" (some "wrong")).2 "PUB1" rfl (by decide) (by decide)⟩

/-! ## Claim C10: sendMessage accepts senders that can never be purged -/

/-- C10: sendMessage validates its sender only as a non-empty string: any
non-empty fromv with valid data and spare capacity is accepted and stored;
yet when fromv is not a 32-char lowercase-hex identifier, nukeUser and the
per-user getMessages branch reject it with 400 Invalid user hash, so such a
message can never be purged or listed by its sender. -/
theorem send_message_sender_unvalidated (s : ServerState) (fromv : String)
    (tov data : Option String) (ts : Option Nat) (hf : Option Bool) (upk : Option String)
    (now : Nat) (rnd : String) (ut : String)
    (hfrom : fromv ≠ "") (hdata : validateMessageData data = true)
    (hcap : s.messages.length < MAX_MESSAGES)
    (hnothash : validateHash (some fromv) = false) (hut : ut ≠ "journalist") :
    sendMessageH s (some fromv) tov data ts hf upk now rnd =
      (.ok (toString now ++ rnd),
       { s with messages := s.messages ++
          [⟨toString now ++ rnd, fromv, jsStrOrNull tov, data, jsTsOrNow ts now,
            hf.getD false, jsStrOrNull upk, none⟩] }) ∧
    nukeUserH s (some fromv) = (.error (400, "Invalid user hash"), s) ∧
    getMessagesH s ut (some fromv) = .error (400, "Invalid user hash") := by
  refine ⟨?_, ?_, ?_⟩
  · simp [sendMessageH, hfrom, hdata, Nat.not_le.mpr hcap]
  · simp [nukeUserH, hnothash]
  · simp [getMessagesH, hut, hnothash]

/-- Concrete run of send_message_sender_unvalidated with the non-identifier
sender "anonymous!": stored by sendMessage, rejected by nukeUser and the
per-user listing. -/
theorem send_message_sender_unvalidated_witness :
    sendMessageH initState (some "anonymous!") none (some "payload") none none none 7 "z" =
      (.ok (toString 7 ++ "z"),
       { initState with messages := initState.messages ++
          [⟨toString 7 ++ "z", "anonymous!", jsStrOrNull none, some "payload", jsTsOrNow none 7,
            Option.getD none false, jsStrOrNull none, none⟩] }) ∧
    nukeUserH initState (some "anonymous!") = (.error (400, "Invalid user hash"), initState) ∧
    getMessagesH initState "user" (some "anonymous!") = .error (400, "Invalid user hash") :=
  send_message_sender_unvalidated initState "anonymous!" none (some "payload") none none none
    7 "z" "user" (by decide) (by decide) (by decide) (by decide) (by decide)

/-! ## Claim C4: chunk metadata is only checked to be a number -/

/-- C4 counterexample: a submitChunk with the fractional chunkIndex 3/2 (a JS
number, not an integer) is not rejected: it answers success and creates a
chunk set holding the fractional index. -/
theorem chunk_fractional_index_accepted :
    (sendChunkH initState (some "u") (some (mkRat 3 2)) (some 2) (some "d") (some "f")
        none none 0 "r").1 = .ok (1, 2) ∧
    lookupKey (sendChunkH initState (some "u") (some (mkRat 3 2)) (some 2) (some "d")
        (some "f") none none 0 "r").2.fileChunks "u_f" =
      some ⟨"u", "f", none, none, 2, [(mkRat 3 2, "d")], 0⟩ := by
  constructor <;> decide

/-- C4 amended: submitChunk rejects chunkIndex/totalChunks with
"Invalid chunk metadata" exactly when one of them is not a JS number (absent
or of another type); every numeric value — fractional included — passes the
check, the request succeeds, and a chunk set for the key exists afterwards. -/
theorem chunk_metadata_number_check (s : ServerState) (fromv : String)
    (ci tc : Option Rat) (cd fn ft : Option String) (fs : Option Rat)
    (now : Nat) (rnd : String) (hfrom : fromv ≠ "")
    (hcd : cd.getD "" ≠ "" ∧ (cd.getD "").length ≤ MAX_CHUNK_SIZE)
    (hfn : fn.getD "" ≠ "" ∧ (fn.getD "").length ≤ 255) :
    ((ci = none ∨ tc = none) →
      sendChunkH s (some fromv) ci tc cd fn ft fs now rnd =
        (.error (400, "Invalid chunk metadata"), s)) ∧
    (∀ x y : Rat, ci = some x → tc = some y →
      (∃ r : Nat × Rat, (sendChunkH s (some fromv) ci tc cd fn ft fs now rnd).1 = .ok r) ∧
      lookupKey (sendChunkH s (some fromv) ci tc cd fn ft fs now rnd).2.fileChunks
          (fromv ++ "_" ++ fn.getD "") ≠ none) := by
  constructor
  · rintro (hci | htc)
    · cases tc <;> simp [sendChunkH, hfrom, hci]
    · cases ci <;> simp [sendChunkH, hfrom, htc]
  · intro x y hci htc
    subst hci htc
    have h1 : ¬ (cd.getD "" = "" ∨ MAX_CHUNK_SIZE < (cd.getD "").length) := by
      push_neg; exact ⟨hcd.1, hcd.2⟩
    have h2 : ¬ (fn.getD "" = "" ∨ 255 < (fn.getD "").length) := by
      push_neg; exact ⟨hfn.1, hfn.2⟩
    have hf0 : ¬ ((some fromv).getD "" = "") := by simpa using hfrom
    refine ⟨?_, ?_⟩
    · simp only [sendChunkH, if_neg hf0, if_neg h1, if_neg h2]
      split <;> exact ⟨_, rfl⟩
    · simp only [sendChunkH, if_neg hf0, if_neg h1, if_neg h2]
      split <;> simp [lookupKey_insertKey_self, Option.getD]

/-- Concrete run of chunk_metadata_number_check: a request whose chunkIndex
field is not a number is rejected, and one with totalChunks 5/2 is accepted
and creates the chunk set. -/
theorem chunk_metadata_number_check_witness :
    sendChunkH initState (some "u") none (some 4) (some "d") (some "f") none none 0 "r" =
      (.error (400, "Invalid chunk metadata"), initState) ∧
    (∃ r : Nat × Rat,
      (sendChunkH initState (some "u") (some 1) (some (mkRat 5 2)) (some "d") (some "f")
          none none 0 "r").1 = .ok r) ∧
    lookupKey (sendChunkH initState (some "u") (some 1) (some (mkRat 5 2)) (some "d")
        (some "f") none none 0 "r").2.fileChunks ("u" ++ "_" ++ "f") ≠ none :=
  ⟨(chunk_metadata_number_check initState "u" none (some 4) (some "d") (some "f") none none
      0 "r" (by decide) (by decide) (by decide)).1 (Or.inl rfl),
   (chunk_metadata_number_check initState "u" (some 1) (some (mkRat 5 2)) (some "d")
      (some "f") none none 0 "r" (by decide) (by decide) (by decide)).2
      1 (mkRat 5 2) rfl rfl⟩

/-! ## Claim C2: a late duplicate chunk re-fires completion -/

/-- C2: a transfer of one chunk completes and pushes a file message; re-sending
the same chunk while the chunk set is still present (before the grace-delay
deletion fires) passes the completion check again and pushes a second file
message: completion does not fire at most once per transfer. -/
theorem duplicate_chunk_double_completion :
    (List.foldl (step none) initState
      [.opSendChunk (some "u1") (some 0) (some 1) (some "c") (some "a.txt") none none 0 "r",
       .opSendChunk (some "u1") (some 0) (some 1) (some "c") (some "a.txt") none none 5 "q"]).messages.length = 2 ∧
    ∀ m ∈ (List.foldl (step none) initState
      [.opSendChunk (some "u1") (some 0) (some 1) (some "c") (some "a.txt") none none 0 "r",
       .opSendChunk (some "u1") (some 0) (some 1) (some "c") (some "a.txt") none none 5 "q"]).messages,
      m.hasFiles = true := by
  constructor <;> decide

/-! ## Claim C8: nuking a sender removes all of their messages -/

/-- C8: after nukeUser X (X a valid identifier), the store holds exactly the
previous messages whose sender differs from X, in order (so messages from
other senders are unaffected); the journalist listing and the user listing
for X then contain no message with sender X. -/
theorem nuke_user_purges_sender (s : ServerState) (X : String)
    (hX : validateHash (some X) = true) :
    (nukeUserH s (some X)).2.messages = s.messages.filter (fun m => !(m.fromId == X)) ∧
    (∀ m ∈ ((nukeUserH s (some X)).2).messages, m.fromId ≠ X) ∧
    getMessagesH (nukeUserH s (some X)).2 "journalist" none =
      .ok ((nukeUserH s (some X)).2).messages ∧
    (∃ l, getMessagesH (nukeUserH s (some X)).2 "user" (some X) = .ok l ∧
      ∀ m ∈ l, m.fromId ≠ X) := by
  have hmsgs : (nukeUserH s (some X)).2.messages
      = s.messages.filter (fun m => !(m.fromId == X)) := by
    simp [nukeUserH, hX, removeFromSender_eq_filter]
  have hnotX : ∀ m ∈ ((nukeUserH s (some X)).2).messages, m.fromId ≠ X := by
    intro m hm
    rw [hmsgs] at hm
    have := List.of_mem_filter hm
    simpa using this
  refine ⟨hmsgs, hnotX, by simp [getMessagesH], ?_⟩
  refine ⟨((nukeUserH s (some X)).2).messages.filter
      (fun m => m.fromId == X || m.toId == some X), ?_, ?_⟩
  · simp [getMessagesH, hX]
  · intro m hm
    exact hnotX m (List.mem_of_mem_filter hm)

/-- A 32-char lowercase-hex identifier used in the concrete nuke run. -/
def nukeDemoX : String := "aaaaaaaaaaaaaaaaaaaaaaaaaaaaaaaa"

/-- A store holding one message from nukeDemoX and one from another sender
addressed to nukeDemoX. -/
def nukeDemoState : ServerState :=
  ⟨[⟨"i1", nukeDemoX, none, some "e1", 1, false, none, none⟩,
    ⟨"i2", "bbbbbbbbbbbbbbbbbbbbbbbbbbbbbbbb", some nukeDemoX, some "e2", 2, false, none, none⟩],
   [], [], none⟩

/-- Concrete run of nuke_user_purges_sender on a store holding one message
from the nuked sender and one from another sender. -/
theorem nuke_user_purges_sender_witness :
    (nukeUserH nukeDemoState (some nukeDemoX)).2.messages
        = nukeDemoState.messages.filter (fun m => !(m.fromId == nukeDemoX)) ∧
    (∀ m ∈ ((nukeUserH nukeDemoState (some nukeDemoX)).2).messages, m.fromId ≠ nukeDemoX) ∧
    getMessagesH (nukeUserH nukeDemoState (some nukeDemoX)).2 "journalist" none =
      .ok ((nukeUserH nukeDemoState (some nukeDemoX)).2).messages ∧
    (∃ l, getMessagesH (nukeUserH nukeDemoState (some nukeDemoX)).2 "user" (some nukeDemoX)
        = .ok l ∧ ∀ m ∈ l, m.fromId ≠ nukeDemoX) :=
  nuke_user_purges_sender nukeDemoState nukeDemoX (by decide)

/-! ## Claim C7: fixed-window rate limiting -/

/-- Within a still-valid window, every admitted call increments the count and
allows while the count stays at most the limit. -/
lemma runRateLimit_within (R : Nat) : ∀ (ts : List Nat) (c : Nat),
    (∀ t ∈ ts, t ≤ R) → c + ts.length ≤ RATE_LIMIT_MAX_REQUESTS →
    runRateLimit (some ⟨c, R⟩) ts = (List.replicate ts.length true, some ⟨c + ts.length, R⟩) := by
  intro ts
  induction ts with
  | nil => intro c _ _; simp [runRateLimit]
  | cons t ts ih =>
      intro c hin hc
      have ht : ¬ R < t := Nat.not_lt.mpr (hin t (List.mem_cons_self t ts))
      have hcnt : ¬ RATE_LIMIT_MAX_REQUESTS ≤ c := by
        simp only [List.length_cons] at hc
        omega
      have hrest := ih (c + 1) (fun t' ht' => hin t' (List.mem_cons_of_mem t ht'))
        (by simp only [List.length_cons] at hc ⊢; omega)
      simp only [runRateLimit, rateLimitStep, if_neg ht, if_neg hcnt, hrest, List.length_cons,
        List.replicate_succ]
      rw [(by omega : c + (ts.length + 1) = c + 1 + ts.length)]

/-- C7: for a client key not yet in the rate-limit map, 101 consecutive calls
whose times all lie within the window opened by the first call are decided
allow for calls 1-100 and reject for call 101; a further call strictly after
the window's reset time is allowed again (the record resets as first-seen). -/
theorem rate_limit_101_calls (t0 tlast t' : Nat) (body : List Nat)
    (hbody : body.length = RATE_LIMIT_MAX_REQUESTS - 1)
    (hin : ∀ t ∈ body, t ≤ t0 + RATE_LIMIT_WINDOW)
    (hlast : tlast ≤ t0 + RATE_LIMIT_WINDOW)
    (hafter : t0 + RATE_LIMIT_WINDOW < t') :
    (runRateLimit none (t0 :: body ++ [tlast])).1
        = List.replicate RATE_LIMIT_MAX_REQUESTS true ++ [false] ∧
    (rateLimitStep (runRateLimit none (t0 :: body ++ [tlast])).2 t').1 = true := by
  have hsplit : ∀ rec (l1 l2 : List Nat), runRateLimit rec (l1 ++ l2)
      = ((runRateLimit rec l1).1 ++ (runRateLimit (runRateLimit rec l1).2 l2).1,
         (runRateLimit (runRateLimit rec l1).2 l2).2) := by
    intro rec l1
    induction l1 generalizing rec with
    | nil => intro l2; simp [runRateLimit]
    | cons t l1 ih => intro l2; simp [runRateLimit, ih]
  have hfirst : rateLimitStep none t0 = (true, ⟨1, t0 + RATE_LIMIT_WINDOW⟩) := rfl
  have hbodyrun := runRateLimit_within (t0 + RATE_LIMIT_WINDOW) body 1 hin
    (by rw [hbody]; decide)
  have hfull : runRateLimit none (t0 :: body ++ [tlast])
      = (true :: List.replicate body.length true ++ [false],
         some ⟨1 + body.length, t0 + RATE_LIMIT_WINDOW⟩) := by
    have h1 : runRateLimit none ((t0 :: body) ++ [tlast])
        = ((runRateLimit none (t0 :: body)).1
            ++ (runRateLimit (runRateLimit none (t0 :: body)).2 [tlast]).1,
           (runRateLimit (runRateLimit none (t0 :: body)).2 [tlast]).2) := hsplit none (t0 :: body) [tlast]
    have h2 : runRateLimit none (t0 :: body)
        = (true :: List.replicate body.length true,
           some ⟨1 + body.length, t0 + RATE_LIMIT_WINDOW⟩) := by
      simp [runRateLimit, hfirst, hbodyrun]
    have hlim : RATE_LIMIT_MAX_REQUESTS ≤ 1 + body.length := by rw [hbody]; decide
    have h3 : runRateLimit (some ⟨1 + body.length, t0 + RATE_LIMIT_WINDOW⟩) [tlast]
        = ([false], some ⟨1 + body.length, t0 + RATE_LIMIT_WINDOW⟩) := by
      simp [runRateLimit, rateLimitStep, Nat.not_lt.mpr hlast, hlim]
    rw [List.cons_append] at h1 ⊢
    rw [h1, h2, h3]
  constructor
  · rw [hfull]
    have : RATE_LIMIT_MAX_REQUESTS = body.length + 1 := by rw [hbody]; decide
    rw [this, List.replicate_succ]
  · rw [hfull]
    simp [rateLimitStep, hafter]

/-- Concrete run of rate_limit_101_calls: 101 calls all at time 0 from a
fresh client, then one call just after the window. -/
theorem rate_limit_101_calls_witness :
    (runRateLimit none (0 :: List.replicate 99 0 ++ [0])).1
        = List.replicate RATE_LIMIT_MAX_REQUESTS true ++ [false] ∧
    (rateLimitStep (runRateLimit none (0 :: List.replicate 99 0 ++ [0])).2 60001).1 = true :=
  rate_limit_101_calls 0 0 60001 (List.replicate 99 0) (by decide)
    (by intro t ht; rcases List.eq_of_mem_replicate ht with rfl; decide) (by decide) (by decide)

/-! ## Claim C3: chunk-set index bounds -/

lemma lookupKey_mem {α β : Type} [DecidableEq α] {l : List (α × β)} {k : α} {v : β}
    (h : lookupKey l k = some v) : (k, v) ∈ l := by
  induction l with
  | nil => simp [lookupKey] at h
  | cons p rest ih =>
      obtain ⟨k', v'⟩ := p
      by_cases hk : k' = k
      · subst hk
        have hv : v' = v := by simpa [lookupKey] using h
        rw [← hv]
        exact List.mem_cons_self _ _
      · simp only [lookupKey, if_neg hk] at h
        exact List.mem_cons_of_mem _ (ih h)

/-- The state reached by one accepted submitChunk carrying chunkIndex 5 with
totalChunks 3. -/
def chunkCexState : ServerState :=
  List.foldl (step none) initState
    [.opSendChunk (some "u") (some 5) (some 3) (some "d") (some "f") none none 0 "r"]

/-- C3 counterexample: a reachable state holds a chunk set whose stored index
5 exceeds totalChunks - 1 = 2: the source never checks the index range
against totalChunks. -/
theorem chunk_index_out_of_range :
    Reachable none chunkCexState ∧
    lookupKey chunkCexState.fileChunks "u_f"
      = some ⟨"u", "f", none, none, 3, [((5 : Rat), "d")], 0⟩ ∧
    ¬ ((5 : Rat) ≤ 3 - 1) :=
  ⟨⟨_, rfl⟩, by decide, by norm_num⟩

/-- The trace-side assumption under which the claimed invariant does hold:
every submitChunk in the trace carries the common totalChunks value N and an
integer chunkIndex in range. -/
def ChunkOpsBounded (N : Nat) : Op → Prop
  | .opSendChunk _ ci tc _ _ _ _ _ _ =>
      tc = some (N : Rat) ∧ ∃ k : Nat, k < N ∧ ci = some (k : Rat)
  | _ => True

/-- The chunk-set invariant maintained under ChunkOpsBounded: every stored
set has totalChunks N, pairwise-distinct indices, and only in-range integer
indices. -/
def ChunkInv (N : Nat) (s : ServerState) : Prop :=
  ∀ kv ∈ s.fileChunks,
    kv.2.totalChunks = (N : Rat) ∧
    (kv.2.chunks.map Prod.fst).Nodup ∧
    ∀ p ∈ kv.2.chunks, ∃ k : Nat, k < N ∧ p.1 = (k : Rat)

lemma chunkInv_step (N : Nat) (env : Option String) (s : ServerState) (op : Op)
    (hs : ChunkInv N s) (hop : ChunkOpsBounded N op) : ChunkInv N (step env s op) := by
  cases op with
  | opRegisterUser hash now =>
      intro kv hkv
      refine hs kv ?_
      simp only [step, registerUserH] at hkv
      split_ifs at hkv <;> exact hkv
  | opRegisterJournalist pk sec =>
      intro kv hkv
      refine hs kv ?_
      simp only [step, registerJournalistH] at hkv
      split_ifs at hkv <;> exact hkv
  | opSendMessage fromv tov d ts hf upk now rnd =>
      intro kv hkv
      refine hs kv ?_
      simp only [step, sendMessageH] at hkv
      split_ifs at hkv <;> exact hkv
  | opGetMessages ut hash => exact hs
  | opNukeUser hash =>
      intro kv hkv
      refine hs kv ?_
      simp only [step, nukeUserH] at hkv
      split_ifs at hkv <;> dsimp only at hkv
      · exact List.mem_of_mem_filter hkv
      · exact hkv
  | opChunkTimer key =>
      intro kv hkv
      exact hs kv (List.mem_of_mem_filter hkv)
  | opSweepMessages now => exact hs
  | opSendChunk fromv ci tc cd fn ft fs now rnd =>
      obtain ⟨htc, k, hkN, hci⟩ := hop
      subst htc hci
      -- in every accepted branch the new fileChunks is the insertKey update
      have hcore : ∀ kv ∈ insertKey s.fileChunks (fromv.getD "" ++ "_" ++ fn.getD "")
            { (match lookupKey s.fileChunks (fromv.getD "" ++ "_" ++ fn.getD "") with
               | some cs => cs
               | none => ⟨fromv.getD "", fn.getD "", ft, fs, (N : Rat), [], 0⟩) with
              chunks := insertKey
                (match lookupKey s.fileChunks (fromv.getD "" ++ "_" ++ fn.getD "") with
                 | some cs => cs
                 | none => ⟨fromv.getD "", fn.getD "", ft, fs, (N : Rat), [], 0⟩).chunks
                (k : Rat) (cd.getD ""),
              lastUpdate := now },
            kv.2.totalChunks = (N : Rat) ∧ (kv.2.chunks.map Prod.fst).Nodup ∧
            ∀ p ∈ kv.2.chunks, ∃ j : Nat, j < N ∧ p.1 = (j : Rat) := by
          intro kv hkv
          rcases mem_insertKey hkv with hkv | hkv
          · subst hkv
            have hbase : (match lookupKey s.fileChunks (fromv.getD "" ++ "_" ++ fn.getD "") with
                 | some cs => cs
                 | none => (⟨fromv.getD "", fn.getD "", ft, fs, (N : Rat), [], 0⟩ : ChunkSet)).totalChunks = (N : Rat) ∧
                ((match lookupKey s.fileChunks (fromv.getD "" ++ "_" ++ fn.getD "") with
                 | some cs => cs
                 | none => (⟨fromv.getD "", fn.getD "", ft, fs, (N : Rat), [], 0⟩ : ChunkSet)).chunks.map Prod.fst).Nodup ∧
                ∀ p ∈ (match lookupKey s.fileChunks (fromv.getD "" ++ "_" ++ fn.getD "") with
                 | some cs => cs
                 | none => (⟨fromv.getD "", fn.getD "", ft, fs, (N : Rat), [], 0⟩ : ChunkSet)).chunks,
                  ∃ j : Nat, j < N ∧ p.1 = (j : Rat) := by
              cases hlk : lookupKey s.fileChunks (fromv.getD "" ++ "_" ++ fn.getD "") with
              | none => simp
              | some cs0 => simpa using hs _ (lookupKey_mem hlk)
            refine ⟨hbase.1, keys_insertKey_nodup _ _ hbase.2.1, ?_⟩
            intro p hp
            rcases mem_insertKey hp with hp | hp
            · subst hp; exact ⟨k, hkN, rfl⟩
            · exact hbase.2.2 p hp
          · exact hs kv hkv
      simp only [step, sendChunkH]
      split_ifs with h1 h2 h3 h4
      · exact hs
      · exact hs
      · exact hs
      · intro kv hkv
        exact hcore kv hkv
      · intro kv hkv
        exact hcore kv hkv

lemma chunkInv_trace (N : Nat) (env : Option String) (ops : List Op)
    (hops : ∀ op ∈ ops, ChunkOpsBounded N op) :
    ChunkInv N (List.foldl (step env) initState ops) := by
  suffices h : ∀ s, ChunkInv N s → ChunkInv N (List.foldl (step env) s ops) by
    refine h initState ?_
    intro kv hkv
    simp [initState] at hkv
  induction ops with
  | nil => intro s hs; exact hs
  | cons op ops ih =>
      intro s hs
      exact ih (fun o ho => hops o (List.mem_cons_of_mem op ho)) _
        (chunkInv_step N env s op hs (hops op (List.mem_cons_self op ops)))

/-- C3 amended: the source never checks chunk indices, so the invariant holds
only conditionally: in every state reached by a trace whose submitChunk
requests all carry the common totalChunks value N and an integer chunkIndex
in [0, N-1], every chunk set stores at most N distinct indices and every
stored index i satisfies 0 ≤ i ≤ totalChunks - 1. -/
theorem chunk_set_bounded_of_valid_indices (N : Nat) (env : Option String) (ops : List Op)
    (hops : ∀ op ∈ ops, ChunkOpsBounded N op) :
    ∀ kv ∈ (List.foldl (step env) initState ops).fileChunks,
      kv.2.chunks.length ≤ N ∧
      kv.2.totalChunks = (N : Rat) ∧
      ∀ p ∈ kv.2.chunks, 0 ≤ p.1 ∧ p.1 ≤ kv.2.totalChunks - 1 := by
  intro kv hkv
  obtain ⟨htot, hnd, hmem⟩ := chunkInv_trace N env ops hops kv hkv
  refine ⟨?_, htot, ?_⟩
  · have hsub : (kv.2.chunks.map Prod.fst) ⊆ (List.range N).map (fun k : Nat => (k : Rat)) := by
      intro x hx
      rcases List.mem_map.1 hx with ⟨p, hp, hpx⟩
      rcases hmem p hp with ⟨k, hkN, hpk⟩
      exact List.mem_map.2 ⟨k, List.mem_range.2 hkN, by rw [← hpk, hpx]⟩
    have hnd2 : ((List.range N).map (fun k : Nat => (k : Rat))).Nodup :=
      (List.nodup_range N).map Nat.cast_injective
    calc kv.2.chunks.length = (kv.2.chunks.map Prod.fst).length := (List.length_map _ _).symm
      _ ≤ ((List.range N).map (fun k : Nat => (k : Rat))).length :=
          (List.subperm_of_subset hnd hsub).length_le
      _ = N := by simp
  · intro p hp
    rcases hmem p hp with ⟨k, hkN, hpk⟩
    rw [htot, hpk]
    have hklt : (k : Rat) + 1 ≤ (N : Rat) := by exact_mod_cast hkN
    constructor
    · positivity
    · linarith

/-- The two-chunk demo trace for the conditional chunk-set invariant. -/
def boundedDemoTrace : List Op :=
  [.opSendChunk (some "u") (some ((0 : Nat) : Rat)) (some ((2 : Nat) : Rat))
      (some "d") (some "f") none none 0 "r",
   .opSendChunk (some "u") (some ((1 : Nat) : Rat)) (some ((2 : Nat) : Rat))
      (some "x") (some "f") none none 3 "q"]

/-- The chunk-set entry that boundedDemoTrace produces. -/
def boundedDemoKv : String × ChunkSet :=
  ("u_f", ⟨"u", "f", none, none, ((2 : Nat) : Rat),
    [(((0 : Nat) : Rat), "d"), (((1 : Nat) : Rat), "x")], 3⟩)

/-- Concrete run of chunk_set_bounded_of_valid_indices: the set built by two
in-range chunks of a two-chunk transfer obeys the bounds. -/
theorem chunk_set_bounded_witness :
    boundedDemoKv.2.chunks.length ≤ 2 ∧
    boundedDemoKv.2.totalChunks = ((2 : Nat) : Rat) ∧
    0 ≤ (((0 : Nat) : Rat)) ∧ (((0 : Nat) : Rat)) ≤ boundedDemoKv.2.totalChunks - 1 := by
  have h := chunk_set_bounded_of_valid_indices 2 none boundedDemoTrace (by
      intro op hop
      simp only [boundedDemoTrace, List.mem_cons, List.not_mem_nil, or_false] at hop
      rcases hop with rfl | rfl
      · exact ⟨rfl, 0, by decide, rfl⟩
      · exact ⟨rfl, 1, by decide, rfl⟩)
    boundedDemoKv (by decide)
  have hp := h.2.2 (((0 : Nat) : Rat), "d") (by decide)
  exact ⟨h.1, h.2.1, hp.1, hp.2⟩

/-! ## Claim C5: complete reassembly in any arrival order -/

/-- The submitChunk request for index k of an N-chunk transfer of (f, fn). -/
def mkChunkOp (f fn : String) (d : Nat → String) (ft : Option String) (fs : Option Rat)
    (N tm : Nat) (rnd : String) (k : Nat) : Op :=
  .opSendChunk (some f) (some (k : Rat)) (some (N : Rat)) (some (d k)) (some fn) ft fs tm rnd

/-- The chunk mapping after the indices in done arrived in that order. -/
def chunksFor (d : Nat → String) (done : List Nat) : List (Rat × String) :=
  done.map (fun (k : Nat) => ((k : Rat), d k))

/-- The chunk set of an N-chunk transfer after the indices in done arrived. -/
def setFor (f fn : String) (d : Nat → String) (ft : Option String) (fs : Option Rat)
    (N tm : Nat) (done : List Nat) : ChunkSet :=
  ⟨f, fn, ft, fs, (N : Rat), chunksFor d done, tm⟩

/-- The server state after the (incomplete) transfer received the indices in
done, starting from the initial state. -/
def pState (f fn : String) (d : Nat → String) (ft : Option String) (fs : Option Rat)
    (N tm : Nat) (done : List Nat) : ServerState :=
  if done = [] then initState
  else { initState with fileChunks := [(f ++ "_" ++ fn, setFor f fn d ft fs N tm done)] }

/-- The server state right after the transfer completed with arrival order
order: one synthesized file message, chunk set still present. -/
def completedState (f fn : String) (d : Nat → String) (ft : Option String) (fs : Option Rat)
    (N tm : Nat) (rnd : String) (order : List Nat) : ServerState :=
  { initState with
    fileChunks := [(f ++ "_" ++ fn, setFor f fn d ft fs N tm order)],
    messages := [⟨toString tm ++ rnd, f, none, none, tm, true, none,
                  some (setFor f fn d ft fs N tm order)⟩] }

lemma keys_chunksFor (d : Nat → String) (done : List Nat) :
    (chunksFor d done).map Prod.fst = done.map (fun k : Nat => (k : Rat)) := by
  induction done with
  | nil => rfl
  | cons k done ih =>
      show ((k : Rat)) :: (chunksFor d done).map Prod.fst
        = ((k : Rat)) :: done.map (fun k : Nat => (k : Rat))
      rw [ih]

lemma not_mem_keys_chunksFor {j : Nat} {done : List Nat} (hj : j ∉ done) (d : Nat → String) :
    ((j : Nat) : Rat) ∉ (chunksFor d done).map Prod.fst := by
  rw [keys_chunksFor]
  intro hmem
  rcases List.mem_map.1 hmem with ⟨k, hk, hkj⟩
  exact hj (Nat.cast_injective hkj ▸ hk)

lemma chunksFor_append_single (d : Nat → String) (done : List Nat) (j : Nat) :
    chunksFor d done ++ [((j : Rat), d j)] = chunksFor d (done ++ [j]) := by
  simp [chunksFor]

lemma length_chunksFor (d : Nat → String) (done : List Nat) :
    (chunksFor d done).length = done.length := by
  simp [chunksFor]

/-- One accepted submitChunk for a fresh index j on the partial state: it
answers the running count done.length + 1 of N and either completes (when the
count reaches N) or extends the partial state. -/
lemma sendChunkH_pState (f fn : String) (d : Nat → String) (ft : Option String)
    (fs : Option Rat) (N tm : Nat) (rnd : String)
    (hf : f ≠ "") (hfn1 : fn ≠ "") (hfn2 : fn.length ≤ 255)
    (hd1 : ∀ k, d k ≠ "") (hd2 : ∀ k, (d k).length ≤ MAX_CHUNK_SIZE)
    (done : List Nat) (j : Nat) (hj : j ∉ done) :
    sendChunkH (pState f fn d ft fs N tm done) (some f) (some ((j : Nat) : Rat))
        (some ((N : Nat) : Rat)) (some (d j)) (some fn) ft fs tm rnd =
      (.ok (done.length + 1, (N : Rat)),
       if ((done.length + 1 : Nat) : Rat) = (N : Rat) then
         completedState f fn d ft fs N tm rnd (done ++ [j])
       else pState f fn d ft fs N tm (done ++ [j])) := by
  have hf0 : ¬ ((some f : Option String).getD "" = "") := by simpa using hf
  have hcd : ¬ ((some (d j) : Option String).getD "" = "" ∨
      MAX_CHUNK_SIZE < ((some (d j) : Option String).getD "").length) := by
    push_neg
    exact ⟨hd1 j, hd2 j⟩
  have hfn0 : ¬ ((some fn : Option String).getD "" = "" ∨
      255 < ((some fn : Option String).getD "").length) := by
    push_neg
    exact ⟨hfn1, hfn2⟩
  have hvcd : ¬ (d j = "" ∨ MAX_CHUNK_SIZE < (d j).length) := by
    push_neg
    exact ⟨hd1 j, hd2 j⟩
  have hvfn : ¬ (fn = "" ∨ 255 < fn.length) := by
    push_neg
    exact ⟨hfn1, hfn2⟩
  have hins : insertKey (chunksFor d done) ((j : Nat) : Rat) (d j)
      = chunksFor d (done ++ [j]) := by
    rw [insertKey_eq_append _ (not_mem_keys_chunksFor hj d)]
    exact chunksFor_append_single d done j
  by_cases hdone : done = []
  · subst hdone
    have hstate : pState f fn d ft fs N tm [] = initState := by simp [pState]
    rw [hstate]
    simp only [sendChunkH, if_neg hf0, if_neg hcd, if_neg hfn0, Option.getD_some, initState]
    simp only [lookupKey, insertKey, List.length_cons, List.length_nil]
    by_cases hN1 : ((0 + 1 : Nat) : Rat) = (N : Rat)
    · rw [if_pos hN1, if_pos hN1]
      simp [completedState, setFor, chunksFor, initState, hf, hvcd, hvfn]
    · rw [if_neg hN1, if_neg hN1]
      simp [pState, setFor, chunksFor, initState, hf, hvcd, hvfn]
  · have hstate : pState f fn d ft fs N tm done
        = { initState with fileChunks := [(f ++ "_" ++ fn, setFor f fn d ft fs N tm done)] } := by
      simp [pState, hdone]
    rw [hstate]
    simp only [sendChunkH, if_neg hf0, if_neg hcd, if_neg hfn0, Option.getD_some]
    have hlk : lookupKey [(f ++ "_" ++ fn, setFor f fn d ft fs N tm done)] (f ++ "_" ++ fn)
        = some (setFor f fn d ft fs N tm done) := by simp [lookupKey]
    rw [hlk]
    simp only [setFor] at hins ⊢
    simp only [hins]
    have hlen : (chunksFor d (done ++ [j])).length = done.length + 1 := by
      rw [length_chunksFor]
      simp
    simp only [insertKey, if_pos rfl, hlen]
    have hne : done ++ [j] ≠ [] := by simp
    by_cases hN1 : ((done.length + 1 : Nat) : Rat) = (N : Rat)
    · rw [if_pos hN1, if_pos hN1]
      simp [completedState, setFor, initState, hf, hvcd, hvfn]
    · rw [if_neg hN1, if_neg hN1]
      simp [pState, if_neg hne, setFor, initState, hf, hvcd, hvfn]

lemma pState_messages (f fn : String) (d : Nat → String) (ft : Option String)
    (fs : Option Rat) (N tm : Nat) (done : List Nat) :
    (pState f fn d ft fs N tm done).messages = [] := by
  unfold pState
  split <;> rfl

/-- Running any duplicate-free, in-progress prefix of a transfer produces the
partial state: the chunk set holds exactly the submitted indices and no
message was pushed. -/
lemma run_pState (env : Option String) (f fn : String) (d : Nat → String) (ft : Option String)
    (fs : Option Rat) (N tm : Nat) (rnd : String)
    (hf : f ≠ "") (hfn1 : fn ≠ "") (hfn2 : fn.length ≤ 255)
    (hd1 : ∀ k, d k ≠ "") (hd2 : ∀ k, (d k).length ≤ MAX_CHUNK_SIZE) :
    ∀ done : List Nat, done.Nodup → done.length < N →
    List.foldl (step env) initState (done.map (mkChunkOp f fn d ft fs N tm rnd)) =
      pState f fn d ft fs N tm done := by
  intro done
  induction done using List.reverseRecOn with
  | nil =>
      intro _ _
      simp [pState]
  | append_singleton done j ih =>
      intro hnd hlen
      have hsplit := List.nodup_append.1 hnd
      have hnd' : done.Nodup := hsplit.1
      have hj : j ∉ done := fun hmem => hsplit.2.2 hmem (List.mem_singleton_self j)
      have hlen' : done.length < N := by
        simp only [List.length_append, List.length_singleton] at hlen
        omega
      rw [List.map_append, List.foldl_append, ih hnd' hlen']
      simp only [List.map_cons, List.map_nil, List.foldl_cons, List.foldl_nil]
      show (sendChunkH (pState f fn d ft fs N tm done) (some f) (some ((j : Nat) : Rat))
          (some ((N : Nat) : Rat)) (some (d j)) (some fn) ft fs tm rnd).2 = _
      rw [sendChunkH_pState f fn d ft fs N tm rnd hf hfn1 hfn2 hd1 hd2 done j hj]
      have hneq : ¬ (((done.length + 1 : Nat) : Rat) = ((N : Nat) : Rat)) := by
        rw [Nat.cast_inj]
        simp only [List.length_append, List.length_singleton] at hlen
        omega
      rw [if_neg hneq]

/-- Running a full permutation of the N indices completes the transfer:
exactly one synthesized file message, chunk set still present. -/
lemma run_completedState (env : Option String) (f fn : String) (d : Nat → String)
    (ft : Option String) (fs : Option Rat) (N tm : Nat) (rnd : String)
    (hf : f ≠ "") (hfn1 : fn ≠ "") (hfn2 : fn.length ≤ 255)
    (hd1 : ∀ k, d k ≠ "") (hd2 : ∀ k, (d k).length ≤ MAX_CHUNK_SIZE)
    (order : List Nat) (hN : 1 ≤ N) (horder : order.Perm (List.range N)) :
    List.foldl (step env) initState (order.map (mkChunkOp f fn d ft fs N tm rnd)) =
      completedState f fn d ft fs N tm rnd order := by
  have hlen : order.length = N := by simpa using horder.length_eq
  have hnd : order.Nodup := horder.nodup_iff.2 (List.nodup_range N)
  rcases List.eq_nil_or_concat' order with rfl | ⟨done, j, rfl⟩
  · simp at hlen
    omega
  · have hsplit := List.nodup_append.1 hnd
    have hj : j ∉ done := fun hmem => hsplit.2.2 hmem (List.mem_singleton_self j)
    have hlen' : done.length < N := by
      simp only [List.length_append, List.length_singleton] at hlen
      omega
    rw [List.map_append, List.foldl_append,
      run_pState env f fn d ft fs N tm rnd hf hfn1 hfn2 hd1 hd2 done hsplit.1 hlen']
    simp only [List.map_cons, List.map_nil, List.foldl_cons, List.foldl_nil]
    show (sendChunkH (pState f fn d ft fs N tm done) (some f) (some ((j : Nat) : Rat))
        (some ((N : Nat) : Rat)) (some (d j)) (some fn) ft fs tm rnd).2 = _
    rw [sendChunkH_pState f fn d ft fs N tm rnd hf hfn1 hfn2 hd1 hd2 done j hj]
    have heq : (((done.length + 1 : Nat) : Rat) = ((N : Nat) : Rat)) := by
      rw [Nat.cast_inj]
      simp only [List.length_append, List.length_singleton] at hlen
      omega
    rw [if_pos heq]

/-- C5: for every N ≥ 1 and every (sender, fileName), submitting the N valid
chunks with indices 0..N-1 exactly once each (any arrival order, all with
totalChunks = N): every proper prefix of calls leaves the Message Store
empty; after the N-th distinct index the store holds exactly one message,
the completed file message with hasFiles = true carrying the full chunk set;
and the m-th call (0-based) answers the running count received = m + 1 of N
total. -/
theorem chunk_reassembly_exactly_once (env : Option String) (N : Nat) (f fn : String)
    (d : Nat → String) (ft : Option String) (fs : Option Rat) (tm : Nat) (rnd : String)
    (order : List Nat)
    (hN : 1 ≤ N) (horder : order.Perm (List.range N))
    (hf : f ≠ "") (hfn1 : fn ≠ "") (hfn2 : fn.length ≤ 255)
    (hd1 : ∀ k, d k ≠ "") (hd2 : ∀ k, (d k).length ≤ MAX_CHUNK_SIZE) :
    (∀ m, m < N →
      (List.foldl (step env) initState
        ((order.take m).map (mkChunkOp f fn d ft fs N tm rnd))).messages = []) ∧
    (∃ msg : Message,
      (List.foldl (step env) initState (order.map (mkChunkOp f fn d ft fs N tm rnd))).messages
        = [msg] ∧ msg.hasFiles = true ∧
        msg.fileData = some (setFor f fn d ft fs N tm order)) ∧
    (∀ m, m < N →
      (sendChunkH (List.foldl (step env) initState
          ((order.take m).map (mkChunkOp f fn d ft fs N tm rnd)))
        (some f) (some ((order.getD m 0 : Nat) : Rat)) (some ((N : Nat) : Rat))
        (some (d (order.getD m 0))) (some fn) ft fs tm rnd).1
        = .ok (m + 1, (N : Rat))) := by
  have hlen : order.length = N := by simpa using horder.length_eq
  have hnd : order.Nodup := horder.nodup_iff.2 (List.nodup_range N)
  have htakend : ∀ m, (order.take m).Nodup :=
    fun m => hnd.sublist (List.take_sublist m order)
  have htakelen : ∀ m, m < N → (order.take m).length = m := by
    intro m hm
    rw [List.length_take]
    exact Nat.min_eq_left (by rw [hlen]; omega)
  refine ⟨?_, ?_, ?_⟩
  · intro m hm
    rw [run_pState env f fn d ft fs N tm rnd hf hfn1 hfn2 hd1 hd2 _ (htakend m)
      (by rw [htakelen m hm]; exact hm)]
    exact pState_messages f fn d ft fs N tm (order.take m)
  · refine ⟨⟨toString tm ++ rnd, f, none, none, tm, true, none,
      some (setFor f fn d ft fs N tm order)⟩, ?_, rfl, rfl⟩
    rw [run_completedState env f fn d ft fs N tm rnd hf hfn1 hfn2 hd1 hd2 order hN horder]
    rfl
  · intro m hm
    have hm' : m < order.length := by rw [hlen]; exact hm
    have hj : order.getD m 0 ∉ order.take m := by
      intro hmem
      have hdrop : order.getD m 0 ∈ order.drop m := by
        rw [List.getD_eq_getElem order 0 hm', List.drop_eq_getElem_cons hm']
        exact List.mem_cons_self _ _
      have hnd2 := hnd
      rw [← List.take_append_drop m order] at hnd2
      exact (List.nodup_append.1 hnd2).2.2 hmem hdrop
    rw [run_pState env f fn d ft fs N tm rnd hf hfn1 hfn2 hd1 hd2 _ (htakend m)
      (by rw [htakelen m hm]; exact hm)]
    rw [sendChunkH_pState f fn d ft fs N tm rnd hf hfn1 hfn2 hd1 hd2 (order.take m)
      (order.getD m 0) hj]
    show Except.ok ((order.take m).length + 1, ((N : Nat) : Rat)) = _
    rw [htakelen m hm]

/-- Concrete run of chunk_reassembly_exactly_once: two chunks arriving in the
order 1, 0 produce no message after the first call and exactly one completed
message after the second. -/
theorem chunk_reassembly_exactly_once_witness :
    (List.foldl (step none) initState
      (([1, 0].take 1).map (mkChunkOp "u1" "a" (fun _ => "x") none none 2 0 "r"))).messages
      = [] ∧
    (List.foldl (step none) initState
      ([1, 0].map (mkChunkOp "u1" "a" (fun _ => "x") none none 2 0 "r"))).messages.length
      = 1 := by
  have hd1 : ∀ k : Nat, (fun _ : Nat => "x") k ≠ "" := by
    intro k
    show "x" ≠ ""
    decide
  have hd2 : ∀ k : Nat, ((fun _ : Nat => "x") k).length ≤ MAX_CHUNK_SIZE := by
    intro k
    show ("x" : String).length ≤ MAX_CHUNK_SIZE
    decide
  obtain ⟨ha, ⟨msg, hmsg, _, _⟩, _⟩ :=
    chunk_reassembly_exactly_once none 2 "u1" "a" (fun _ : Nat => "x") none none 0 "r" [1, 0]
      (by decide) (by decide) (by decide) (by decide) (by decide) hd1 hd2
  exact ⟨ha 1 (by decide), by rw [hmsg]; rfl⟩

/-! ## Claim C1: store capacity -/

/-- The message stored by each request of the capacity-filling trace. -/
def msg0 : Message := ⟨toString 0 ++ "r", "aaaa", none, some "x", 0, false, none, none⟩

/-- A fixed valid sendMessage request used to fill the store. -/
def goodMsgOp : Op := .opSendMessage (some "aaaa") none (some "x") none none none 0 "r"

/-- Repeating the fixed valid sendMessage request below capacity appends one
copy of msg0 per request. -/
lemma run_sendMsgs : ∀ (n k : Nat), k + n ≤ MAX_MESSAGES →
    List.foldl (step none) { initState with messages := List.replicate k msg0 }
      (List.replicate n goodMsgOp)
      = { initState with messages := List.replicate (k + n) msg0 } := by
  intro n
  induction n with
  | zero =>
      intro k _
      simp
  | succ n ih =>
      intro k hk
      rw [List.replicate_succ, List.foldl_cons]
      have hcap : ¬ MAX_MESSAGES ≤ (List.replicate k msg0).length := by
        rw [List.length_replicate]
        omega
      have hstep : step none { initState with messages := List.replicate k msg0 } goodMsgOp
          = { initState with messages := List.replicate (k + 1) msg0 } := by
        simp only [step, goodMsgOp, sendMessageH]
        rw [if_neg (by decide), if_neg (by decide), if_neg hcap]
        simp [msg0, jsStrOrNull, jsTsOrNow, ← List.replicate_succ']
      rw [hstep, ih (k + 1) (by omega), (by omega : k + 1 + n = k + (n + 1))]

/-- The trace that fills the store to MAX_MESSAGES with direct messages and
then completes a one-chunk file transfer. -/
def overTrace : List Op :=
  List.replicate MAX_MESSAGES goodMsgOp
    ++ [.opSendChunk (some "u") (some 0) (some 1) (some "c") (some "f.txt") none none 0 "r"]

/-- The state reached by overTrace. -/
def overState : ServerState := List.foldl (step none) initState overTrace

lemma overState_messages_length : overState.messages.length = MAX_MESSAGES + 1 := by
  have hfill : List.foldl (step none) initState (List.replicate MAX_MESSAGES goodMsgOp)
      = { initState with messages := List.replicate MAX_MESSAGES msg0 } := by
    have h := run_sendMsgs MAX_MESSAGES 0 (by omega)
    rw [(rfl : initState = { initState with messages := List.replicate 0 msg0 })]
    simpa using h
  have hchunk : (step none { initState with messages := List.replicate MAX_MESSAGES msg0 }
      (.opSendChunk (some "u") (some 0) (some 1) (some "c") (some "f.txt") none none 0 "r")).messages
      = List.replicate MAX_MESSAGES msg0
          ++ [⟨toString 0 ++ "r", "u", none, none, 0, true, none,
               some ⟨"u", "f.txt", none, none, 1, [(0, "c")], 0⟩⟩] := by
    simp only [step, sendChunkH]
    rw [if_neg (by decide), if_neg (by decide), if_neg (by decide)]
    simp [lookupKey, insertKey]
  unfold overState overTrace
  rw [List.foldl_append, hfill]
  simp only [List.foldl_cons, List.foldl_nil]
  rw [hchunk]
  rw [List.length_append, List.length_replicate]
  rfl

/-- C1 counterexample: the chunk-reassembly completion appends its
synthesized message with no capacity check, so a reachable state holds
MAX_MESSAGES + 1 messages. -/
theorem store_capacity_exceeded_reachable :
    Reachable none overState ∧ MAX_MESSAGES < overState.messages.length :=
  ⟨⟨overTrace, rfl⟩, by rw [overState_messages_length]; omega⟩

/-- C1 amended: sendMessage at capacity fails with 503 CapacityExceeded and
leaves the state unchanged; but the message synthesized by chunk-reassembly
completion is appended with no capacity check, so the store can reach
MAX_MESSAGES + 1 messages. -/
theorem send_message_capacity_checked (s : ServerState) (fromv : String)
    (tov data : Option String) (ts : Option Nat) (hfl : Option Bool) (upk : Option String)
    (now : Nat) (rnd : String)
    (hfrom : fromv ≠ "") (hdata : validateMessageData data = true)
    (hcap : MAX_MESSAGES ≤ s.messages.length) :
    sendMessageH s (some fromv) tov data ts hfl upk now rnd
      = (.error (503, "Server capacity reached"), s) ∧
    MAX_MESSAGES < overState.messages.length := by
  constructor
  · simp [sendMessageH, hfrom, hdata, hcap]
  · rw [overState_messages_length]
    omega

/-- Concrete run of send_message_capacity_checked on a store already holding
MAX_MESSAGES messages. -/
theorem send_message_capacity_checked_witness :
    sendMessageH { initState with messages := List.replicate MAX_MESSAGES msg0 }
        (some "aaaa") none (some "x") none none none 3 "w"
      = (.error (503, "Server capacity reached"),
         { initState with messages := List.replicate MAX_MESSAGES msg0 }) ∧
    MAX_MESSAGES < overState.messages.length :=
  send_message_capacity_checked { initState with messages := List.replicate MAX_MESSAGES msg0 }
    "aaaa" none (some "x") none none none 3 "w" (by decide) (by decide) (by simp)
